import Mathlib

/-!
# Verification of the P-MATRIX reference encoder

Shallow embedding of the `pmatrix-encoder` Rust crate (modules `schema.rs`,
`mode.rs`, `demo.rs`, `invariants.rs`, `lib.rs`) and proofs of the spec's
claims about it.

Modelling conventions:
* Rust `f64` is modelled by `F64`: NaN, the two infinities, and finite values
  as exact rationals.  Arithmetic on finite values is exact (no rounding).
  Every concrete constant appearing in the spec's claims is a short decimal
  whose IEEE-double image preserves the orderings used by the code, and the
  one arithmetic computation the claims evaluate
  (`(0.25+0.70+0.30+0.20)/4 = 0.3625`, `1 - 0.3625 = 0.6375`) is exact in
  IEEE double as well, so the model and the machine agree at every point a
  claim touches.
* Rust `u64` timestamps are `Nat` (no arithmetic is performed on them, only
  comparisons, so no wrap-around can occur); where a claim quantifies over
  all `u64` values the bound `t < 2^64` is carried as a hypothesis.
* Rust `String` is Lean `String`; `str::split('.')` is modelled character by
  character on `String.data`.
* The emitter's only side effect — reading the wall clock when no timestamp
  is supplied — is modelled by an explicit `now` parameter.
-/

/-- Model of Rust `f64`: NaN, infinities (`inf true` is `-∞`), and finite
values as exact rationals. -/
inductive F64 where
  | nan : F64
  | inf : Bool → F64
  | fin : ℚ → F64
deriving DecidableEq, Repr

namespace F64

/-- Rust `f64::is_nan`. -/
def isNan : F64 → Bool
  | .nan => true
  | _ => false

/-- Rust `f64::is_infinite`. -/
def isInfinite : F64 → Bool
  | .inf _ => true
  | _ => false

/-- IEEE `<` on doubles: any comparison with NaN is false; `-∞` is below
everything else, `+∞` above everything else. -/
def blt : F64 → F64 → Bool
  | .nan, _ => false
  | _, .nan => false
  | .inf true, .inf true => false
  | .inf true, _ => true
  | _, .inf true => false
  | .inf false, _ => false
  | .fin _, .inf false => true
  | .fin a, .fin b => decide (a < b)

/-- IEEE `<=` on doubles: any comparison with NaN is false. -/
def ble : F64 → F64 → Bool
  | .nan, _ => false
  | _, .nan => false
  | .inf true, _ => true
  | _, .inf true => false
  | _, .inf false => true
  | .inf false, _ => false
  | .fin a, .fin b => decide (a ≤ b)

end F64

/-- Exact rational addition written through `mkRat` (kernel-reducible; equal
to `a + b`, see `ratAdd_eq`). -/
def ratAdd (a b : ℚ) : ℚ :=
  mkRat (a.num * b.den + b.num * a.den) (a.den * b.den)

/-- Exact rational subtraction written through `mkRat` (equal to `a - b`,
see `ratSub_eq`). -/
def ratSub (a b : ℚ) : ℚ :=
  mkRat (a.num * b.den - b.num * a.den) (a.den * b.den)

/-- Exact rational division written through `mkRat` (equal to `a / b` —
see `ratDiv_eq` for positive divisors, the only kind the code uses). -/
def ratDiv (a b : ℚ) : ℚ :=
  if b.num < 0 then mkRat (-(a.num * b.den)) (a.den * b.num.natAbs)
  else mkRat (a.num * b.den) (a.den * b.num.natAbs)

namespace F64

/-- IEEE addition, idealized: exact on finite values (no rounding, no
overflow); NaN propagates; opposite infinities give NaN. -/
def add : F64 → F64 → F64
  | .nan, _ => .nan
  | _, .nan => .nan
  | .inf a, .inf b => if a = b then .inf a else .nan
  | .inf a, .fin _ => .inf a
  | .fin _, .inf b => .inf b
  | .fin a, .fin b => .fin (ratAdd a b)

/-- IEEE subtraction, idealized exactly like `F64.add`. -/
def sub : F64 → F64 → F64
  | .nan, _ => .nan
  | _, .nan => .nan
  | .inf a, .inf b => if a = b then .nan else .inf a
  | .inf a, .fin _ => .inf a
  | .fin _, .inf b => .inf !b
  | .fin a, .fin b => .fin (ratSub a b)

/-- IEEE division, idealized: exact on finite values.  Only division by the
nonzero literal `4.0` occurs in the code. -/
def div : F64 → F64 → F64
  | .nan, _ => .nan
  | _, .nan => .nan
  | .inf _, .inf _ => .nan
  | .inf a, .fin b => if b < 0 then .inf !a else .inf a
  | .fin _, .inf _ => .fin 0
  | .fin a, .fin b =>
      if b = 0 then (if a = 0 then .nan else .inf (decide (a < 0)))
      else .fin (ratDiv a b)

end F64

/-- `ratAdd` agrees with rational addition. -/
theorem ratAdd_eq (a b : ℚ) : ratAdd a b = a + b := by
  unfold ratAdd
  conv_rhs => rw [← Rat.mkRat_self a, ← Rat.mkRat_self b]
  rw [Rat.mkRat_eq_div, Rat.mkRat_eq_div, Rat.mkRat_eq_div]
  have ha : ((a.den : ℚ)) ≠ 0 := by positivity
  have hb : ((b.den : ℚ)) ≠ 0 := by positivity
  push_cast
  field_simp
  try ring

/-- `ratSub` agrees with rational subtraction. -/
theorem ratSub_eq (a b : ℚ) : ratSub a b = a - b := by
  unfold ratSub
  conv_rhs => rw [← Rat.mkRat_self a, ← Rat.mkRat_self b]
  rw [Rat.mkRat_eq_div, Rat.mkRat_eq_div, Rat.mkRat_eq_div]
  have ha : ((a.den : ℚ)) ≠ 0 := by positivity
  have hb : ((b.den : ℚ)) ≠ 0 := by positivity
  push_cast
  field_simp
  try ring

/-- `ratDiv` agrees with rational division for positive divisors. -/
theorem ratDiv_eq (a b : ℚ) (hb : 0 < b) : ratDiv a b = a / b := by
  have hbn : 0 < b.num := Rat.num_pos.mpr hb
  have hna : ((b.num.natAbs : ℚ)) = (b.num : ℚ) := by
    rw [Int.cast_natAbs, abs_of_nonneg]
    exact_mod_cast hbn.le
  unfold ratDiv
  rw [if_neg (by omega)]
  conv_rhs => rw [← Rat.mkRat_self a, ← Rat.mkRat_self b]
  rw [Rat.mkRat_eq_div, Rat.mkRat_eq_div, Rat.mkRat_eq_div]
  have ha : ((a.den : ℚ)) ≠ 0 := by positivity
  have hd : ((b.den : ℚ)) ≠ 0 := by positivity
  have hn : ((b.num : ℚ)) ≠ 0 := by exact_mod_cast hbn.ne'
  push_cast
  rw [hna]
  field_simp
  try ring

/-- Multiplicity of `p` in `n`, computed with explicit fuel (the first
argument) so the kernel can evaluate it shallowly. -/
def padExp (p : ℕ) : ℕ → ℕ → ℕ
  | 0, _ => 0
  | fuel + 1, n => if n ≠ 0 && n % p = 0 && 2 ≤ p then padExp p fuel (n / p) + 1 else 0

/-- Smallest number of decimal places needed to write `q` exactly, `none`
when the denominator is not of the form `2^a * 5^b` (never the case for an
IEEE double). -/
def decPlaces (q : ℚ) : Option ℕ :=
  let a := padExp 2 q.den q.den
  let b := padExp 5 q.den q.den
  if q.den = 2 ^ a * 5 ^ b then some (max a b) else none

/-- Decimal rendering of a rational with terminating expansion, matching
Rust's shortest-round-trip `Display` for `f64` at such values: integers
print without a fractional part, otherwise the exact expansion with no
trailing zeros. -/
def ratDecimal (q : ℚ) : String :=
  match decPlaces q with
  | none => "?"
  | some k =>
      let m := (q.num.natAbs * 10 ^ k) / q.den
      let sign := if q.num < 0 then "-" else ""
      if k = 0 then sign ++ Nat.repr m
      else
        let ip := m / 10 ^ k
        let fp := m % 10 ^ k
        let fs := Nat.repr fp
        let pad := String.mk (List.replicate (k - fs.length) '0')
        sign ++ Nat.repr ip ++ "." ++ pad ++ fs

/-- Rust `Display` for `f64`, at the values the model can represent. -/
def F64.fmt : F64 → String
  | .nan => "NaN"
  | .inf true => "-inf"
  | .inf false => "inf"
  | .fin q => ratDecimal q

/-! ## schema.rs -/

/-- The four evaluation functions (`schema.rs`, struct `Functions`). -/
structure Functions where
  baseline : F64
  norm : F64
  stability : F64
  meta_control : F64
deriving DecidableEq, Repr

/-- A single P-MATRIX runtime state record (`schema.rs`,
struct `RuntimeStateRecord`). -/
structure RuntimeStateRecord where
  spec_version : String
  schema_version : String
  timestamp : ℕ
  functions : Functions
  stability_score : F64
  risk_score : F64
  mode : String
  risk_level : String
deriving DecidableEq, Repr

/-- `schema.rs` constant `MODES`. -/
def MODES : List String := ["Optimal", "Normal", "Caution", "Alert", "Halt"]

/-- `schema.rs` constant `RISK_LEVELS`. -/
def RISK_LEVELS : List String := ["L1", "L2", "L3", "L4", "L5"]

/-- `schema.rs` constant `SPEC_VERSION`. -/
def SPEC_VERSION : String := "pmatrix-3.5"

/-- `schema.rs` constant `SCHEMA_VERSION`. -/
def SCHEMA_VERSION : String := "1.0.0"

/-! ## mode.rs -/

/-- `mode.rs`, `demo_partition_map`: maps a risk score to a mode string,
`none` outside `[0.0, 1.0]` or on NaN. -/
def demo_partition_map (risk_score : F64) : Option String :=
  if risk_score.blt (.fin 0) || (F64.fin 1).blt risk_score || risk_score.isNan then
    none
  else
    some <|
      if risk_score.blt (.fin (mkRat 2 10)) then "Optimal"
      else if risk_score.blt (.fin (mkRat 4 10)) then "Normal"
      else if risk_score.blt (.fin (mkRat 6 10)) then "Caution"
      else if risk_score.blt (.fin (mkRat 8 10)) then "Alert"
      else "Halt"

/-- `mode.rs`, `mode_to_risk_level`: the fixed mode → level table. -/
def mode_to_risk_level (mode : String) : Option String :=
  if mode = "Optimal" then some "L1"
  else if mode = "Normal" then some "L2"
  else if mode = "Caution" then some "L3"
  else if mode = "Alert" then some "L4"
  else if mode = "Halt" then some "L5"
  else none

/-! ## demo.rs -/

/-- `demo.rs`, `demo_stability_score`: arithmetic mean of the four function
values (demonstration placeholder logic). -/
def demo_stability_score (f : Functions) : F64 :=
  (((f.baseline.add f.norm).add f.stability).add f.meta_control).div (.fin 4)

/-- `demo.rs`, `demo_risk_score`: complement of the stability score. -/
def demo_risk_score (stability_score : F64) : F64 :=
  (F64.fin 1).sub stability_score

/-! ## invariants.rs -/

/-- Result of validating a single invariant (`invariants.rs`,
struct `InvariantResult`). -/
structure InvariantResult where
  id : String
  passed : Bool
  detail : String
deriving DecidableEq, Repr

/-- Rust `Debug` formatting of an `Option<&str>` value, used in the detail
strings of the consistency checks. -/
def optStrDebug : Option String → String
  | none => "None"
  | some s => "Some(\"" ++ s ++ "\")"

/-- The closure `in_range` of `check_inv_r1`: `(0.0..=1.0).contains(&v) && !v.is_nan()`. -/
def in_range (v : F64) : Bool :=
  ((F64.fin 0).ble v && v.ble (.fin 1)) && !v.isNan

/-- `invariants.rs`, `check_inv_r1`: all four function values in `[0.0, 1.0]`. -/
def check_inv_r1 (r : RuntimeStateRecord) : InvariantResult :=
  let f := r.functions
  let ok := in_range f.baseline && in_range f.norm
    && in_range f.stability && in_range f.meta_control
  { id := "INV-R1"
    passed := ok
    detail :=
      if ok then "All function values in [0.0, 1.0]."
      else "Function value(s) out of range: baseline=" ++ f.baseline.fmt
        ++ ", norm=" ++ f.norm.fmt ++ ", stability=" ++ f.stability.fmt
        ++ ", meta_control=" ++ f.meta_control.fmt }

/-- `invariants.rs`, `check_inv_r2`: `stability_score` in `[0.0, 1.0]`, not NaN. -/
def check_inv_r2 (r : RuntimeStateRecord) : InvariantResult :=
  let ok := ((F64.fin 0).ble r.stability_score && r.stability_score.ble (.fin 1))
    && !r.stability_score.isNan
  { id := "INV-R2", passed := ok
    detail := "stability_score=" ++ r.stability_score.fmt }

/-- `invariants.rs`, `check_inv_r3`: `risk_score` in `[0.0, 1.0]`, not NaN. -/
def check_inv_r3 (r : RuntimeStateRecord) : InvariantResult :=
  let ok := ((F64.fin 0).ble r.risk_score && r.risk_score.ble (.fin 1))
    && !r.risk_score.isNan
  { id := "INV-R3", passed := ok
    detail := "risk_score=" ++ r.risk_score.fmt }

/-- `invariants.rs`, `check_inv_r4`: `timestamp > 0`. -/
def check_inv_r4 (r : RuntimeStateRecord) : InvariantResult :=
  let ok := decide (r.timestamp > 0)
  { id := "INV-R4", passed := ok
    detail := "timestamp=" ++ Nat.repr r.timestamp }

/-- `invariants.rs`, `check_inv_c1`: `mode` equals the partition map's image
of `risk_score`. -/
def check_inv_c1 (r : RuntimeStateRecord) : InvariantResult :=
  let expected := demo_partition_map r.risk_score
  let ok := expected.elim false fun m => m = r.mode
  { id := "INV-C1", passed := ok
    detail := "risk_score=" ++ r.risk_score.fmt ++ " → expected mode="
      ++ optStrDebug expected ++ ", actual mode=" ++ r.mode }

/-- `invariants.rs`, `check_inv_c2`: `risk_level` equals the level map's
image of `mode`. -/
def check_inv_c2 (r : RuntimeStateRecord) : InvariantResult :=
  let expected := mode_to_risk_level r.mode
  let ok := expected.elim false fun l => l = r.risk_level
  { id := "INV-C2", passed := ok
    detail := "mode=" ++ r.mode ++ " → expected risk_level="
      ++ optStrDebug expected ++ ", actual risk_level=" ++ r.risk_level }

/-- `invariants.rs`, `check_inv_c3`: defined as the conjunction of INV-C1
and INV-C2. -/
def check_inv_c3 (r : RuntimeStateRecord) : InvariantResult :=
  let c1 := (check_inv_c1 r).passed
  let c2 := (check_inv_c2 r).passed
  let ok := c1 && c2
  { id := "INV-C3", passed := ok
    detail :=
      if ok then "mode and risk_level are mutually consistent with risk_score."
      else "Mutual consistency violation: mode/risk_level not determined by risk_score." }

/-- `invariants.rs`, `check_inv_s1`: no empty string fields. -/
def check_inv_s1 (r : RuntimeStateRecord) : InvariantResult :=
  let ok := !r.spec_version.isEmpty && !r.schema_version.isEmpty
    && !r.mode.isEmpty && !r.risk_level.isEmpty
  { id := "INV-S1", passed := ok
    detail := "All eight required fields present." }

/-- `invariants.rs`, `check_inv_s2`: vacuous at validation time (extra
fields are rejected at the decode boundary). -/
def check_inv_s2 (_r : RuntimeStateRecord) : InvariantResult :=
  { id := "INV-S2", passed := true
    detail := "No additional fields (enforced by strict deserialization)." }

/-- `invariants.rs`, `check_inv_s3`: `spec_version` equals the constant. -/
def check_inv_s3 (r : RuntimeStateRecord) : InvariantResult :=
  let ok := r.spec_version = SPEC_VERSION
  { id := "INV-S3", passed := ok
    detail := "spec_version=" ++ r.spec_version ++ ", expected=" ++ SPEC_VERSION }

/-- Rust `str::split('.')` on the character list of a string: splits at every
occurrence of the separator, keeping empty pieces (so the result is always
one longer than the number of separators). -/
def splitOnChar (c : Char) : List Char → List (List Char)
  | [] => [[]]
  | x :: xs =>
      if x = c then [] :: splitOnChar c xs
      else
        match splitOnChar c xs with
        | [] => [[x]]
        | h :: t => (x :: h) :: t

/-- The value denoted by a list of ASCII digits, most significant first
(the accumulator of Rust's `from_str_radix`). -/
def digitsVal (ds : List Char) : ℕ :=
  ds.foldl (fun a c => a * 10 + (c.toNat - 48)) 0

/-- Rust `str::parse::<u32>()`: an optional leading `'+'`, then one or more
ASCII digits, value below `2^32`; `some` of the value on success.  (A leading
`'-'` is rejected for unsigned types.) -/
def parseU32 (s : List Char) : Option ℕ :=
  let digits := if s.head? = some '+' then s.tail else s
  if digits = [] then none
  else if digits.all Char.isDigit then
    if digitsVal digits < 2 ^ 32 then some (digitsVal digits) else none
  else none

/-- `invariants.rs`, `check_inv_s4`: `schema_version` splits on `'.'` into
exactly three parts, each parsing as a `u32`. -/
def check_inv_s4 (r : RuntimeStateRecord) : InvariantResult :=
  let parts := splitOnChar '.' r.schema_version.data
  let ok := parts.length = 3 && parts.all fun p => (parseU32 p).isSome
  { id := "INV-S4", passed := ok
    detail := "schema_version=" ++ r.schema_version }

/-- `invariants.rs`, `check_inv_t1_note`: informational pass for the
stream-level invariant. -/
def check_inv_t1_note : InvariantResult :=
  { id := "INV-T1", passed := true
    detail := "Stream-level invariant. Not checkable on a single record. Use validate_stream() for sequential validation." }

/-- `invariants.rs`, `validate_all`: all 12 invariant results, in order. -/
def validate_all (record : RuntimeStateRecord) : List InvariantResult :=
  [ check_inv_r1 record, check_inv_r2 record, check_inv_r3 record,
    check_inv_r4 record, check_inv_c1 record, check_inv_c2 record,
    check_inv_c3 record, check_inv_s1 record, check_inv_s2 record,
    check_inv_s3 record, check_inv_s4 record, check_inv_t1_note ]

/-- `invariants.rs`, `is_valid`: all invariants pass. -/
def is_valid (record : RuntimeStateRecord) : Bool :=
  (validate_all record).all fun r => r.passed

/-- The loop body of `validate_stream_t1`, scanning from index `i` with the
record at `i - 1` in hand. -/
def streamT1From (prev : RuntimeStateRecord) :
    List RuntimeStateRecord → ℕ → Option ℕ
  | [], _ => none
  | r :: rest, i =>
      if r.timestamp < prev.timestamp then some i
      else streamT1From r rest (i + 1)

/-- `invariants.rs`, `validate_stream_t1`: index of the first record whose
timestamp is strictly below its predecessor's. -/
def validate_stream_t1 : List RuntimeStateRecord → Option ℕ
  | [] => none
  | r :: rest => streamT1From r rest 1

/-! ## lib.rs -/

/-- The input-validation loop of `emit_demo_record`: first error for the
first offending `(name, value)` pair, `none` if all pass. -/
def checkInputs : List (String × F64) → Option String
  | [] => none
  | (name, val) :: rest =>
      if val.isNan || val.isInfinite then
        some (name ++ " is NaN or infinite")
      else if !((F64.fin 0).ble val && val.ble (.fin 1)) then
        some (name ++ " = " ++ val.fmt ++ " is outside [0.0, 1.0]")
      else checkInputs rest

/-- `lib.rs`, `emit_demo_record`.  The wall clock read by the
default-timestamp branch is passed in as `now`; the `?`-style early returns
of the Rust are the explicit `error` branches. -/
def emit_demo_record (now : ℕ) (baseline norm stability meta_control : F64)
    (timestamp : Option ℕ) : Except String RuntimeStateRecord :=
  match checkInputs
      [("baseline", baseline), ("norm", norm),
       ("stability", stability), ("meta_control", meta_control)] with
  | some e => .error e
  | none =>
    let functions : Functions :=
      { baseline := baseline, norm := norm,
        stability := stability, meta_control := meta_control }
    let stability_score := demo_stability_score functions
    let risk_score := demo_risk_score stability_score
    match demo_partition_map risk_score with
    | none => .error ("risk_score " ++ risk_score.fmt ++ " out of range")
    | some mode =>
      match mode_to_risk_level mode with
      | none => .error ("unknown mode " ++ mode)
      | some risk_level =>
        .ok
          { spec_version := SPEC_VERSION
            schema_version := SCHEMA_VERSION
            timestamp := timestamp.getD now
            functions := functions
            stability_score := stability_score
            risk_score := risk_score
            mode := mode
            risk_level := risk_level }

/-! ## Helper lemmas -/

theorem F64.blt_fin (a b : ℚ) : F64.blt (.fin a) (.fin b) = decide (a < b) := rfl

theorem F64.ble_fin (a b : ℚ) : F64.ble (.fin a) (.fin b) = decide (a ≤ b) := rfl

theorem mkRat_band1 : mkRat 2 10 = (2 : ℚ)/10 := by rw [Rat.mkRat_eq_div]; norm_num

theorem mkRat_band2 : mkRat 4 10 = (4 : ℚ)/10 := by rw [Rat.mkRat_eq_div]; norm_num

theorem mkRat_band3 : mkRat 6 10 = (6 : ℚ)/10 := by rw [Rat.mkRat_eq_div]; norm_num

theorem mkRat_band4 : mkRat 8 10 = (8 : ℚ)/10 := by rw [Rat.mkRat_eq_div]; norm_num

/-- On a finite value the partition map reduces to a five-way split on the
underlying rational. -/
theorem demo_partition_map_fin (q : ℚ) :
    demo_partition_map (.fin q) =
      if q < 0 ∨ 1 < q then none
      else some (if q < (2:ℚ)/10 then "Optimal"
        else if q < (4:ℚ)/10 then "Normal"
        else if q < (6:ℚ)/10 then "Caution"
        else if q < (8:ℚ)/10 then "Alert"
        else "Halt") := by
  simp only [demo_partition_map, F64.blt_fin, F64.isNan, Bool.or_false,
    Bool.or_eq_true, decide_eq_true_eq, mkRat_band1, mkRat_band2,
    mkRat_band3, mkRat_band4]

/-! ## Claims -/

/-- C1: `demo_partition_map` is `none` exactly when the input is NaN, below
0, or above 1 (infinities included); on `[0,1]` it returns exactly one of
the five modes according to the bands `[0,0.2) ↦ Optimal`,
`[0.2,0.4) ↦ Normal`, `[0.4,0.6) ↦ Caution`, `[0.6,0.8) ↦ Alert`,
`[0.8,1] ↦ Halt`; and it takes the stated values at the band edges,
at `0.19999999`, at `-0.001`, `1.001` and NaN. -/
theorem C1_partition_map_bands (x : F64) :
    (demo_partition_map x = none ↔
      x = .nan ∨ x = .inf true ∨ x = .inf false ∨
        ∃ q, x = .fin q ∧ (q < 0 ∨ 1 < q))
  ∧ (∀ q : ℚ, x = .fin q → 0 ≤ q →
      (q < (2:ℚ)/10 → demo_partition_map x = some "Optimal")
    ∧ ((2:ℚ)/10 ≤ q → q < (4:ℚ)/10 → demo_partition_map x = some "Normal")
    ∧ ((4:ℚ)/10 ≤ q → q < (6:ℚ)/10 → demo_partition_map x = some "Caution")
    ∧ ((6:ℚ)/10 ≤ q → q < (8:ℚ)/10 → demo_partition_map x = some "Alert")
    ∧ ((8:ℚ)/10 ≤ q → q ≤ 1 → demo_partition_map x = some "Halt"))
  ∧ (∀ q : ℚ, x = .fin q → 0 ≤ q → q ≤ 1 →
      ∃ m, m ∈ MODES ∧ demo_partition_map x = some m)
  ∧ demo_partition_map (.fin 0) = some "Optimal"
  ∧ demo_partition_map (.fin (mkRat 19999999 100000000)) = some "Optimal"
  ∧ demo_partition_map (.fin (mkRat 2 10)) = some "Normal"
  ∧ demo_partition_map (.fin (mkRat 4 10)) = some "Caution"
  ∧ demo_partition_map (.fin (mkRat 6 10)) = some "Alert"
  ∧ demo_partition_map (.fin (mkRat 8 10)) = some "Halt"
  ∧ demo_partition_map (.fin 1) = some "Halt"
  ∧ demo_partition_map (.fin (mkRat (-1) 1000)) = none
  ∧ demo_partition_map (.fin (mkRat 1001 1000)) = none
  ∧ demo_partition_map .nan = none := by
  refine ⟨?_, ?_, ?_, by decide, by decide, by decide, by decide, by decide,
    by decide, by decide, by decide, by decide, by decide⟩
  · cases x with
    | nan => simp [demo_partition_map, F64.isNan, F64.blt]
    | inf b => cases b <;> simp [demo_partition_map, F64.isNan, F64.blt]
    | fin q =>
        rw [demo_partition_map_fin]
        by_cases h : q < 0 ∨ 1 < q
        · simp [h]
        · simp [h]
  · intro q hx h0
    subst hx
    rw [demo_partition_map_fin]
    refine ⟨?_, ?_, ?_, ?_, ?_⟩
    · intro h1
      rw [if_neg (by push_neg; exact ⟨h0, by linarith⟩), if_pos h1]
    · intro h1 h2
      rw [if_neg (by push_neg; exact ⟨h0, by linarith⟩),
        if_neg (by linarith), if_pos h2]
    · intro h1 h2
      rw [if_neg (by push_neg; exact ⟨h0, by linarith⟩),
        if_neg (by linarith), if_neg (by linarith), if_pos h2]
    · intro h1 h2
      rw [if_neg (by push_neg; exact ⟨h0, by linarith⟩),
        if_neg (by linarith), if_neg (by linarith), if_neg (by linarith),
        if_pos h2]
    · intro h1 h2
      rw [if_neg (by push_neg; exact ⟨h0, h2⟩),
        if_neg (by linarith), if_neg (by linarith), if_neg (by linarith),
        if_neg (by linarith)]
  · intro q hx h0 h1
    subst hx
    rw [demo_partition_map_fin, if_neg (by push_neg; exact ⟨h0, h1⟩)]
    split_ifs <;> exact ⟨_, by decide, rfl⟩

/-- Witness for C1 at concrete inputs: `0.3` is in band two and maps to
`"Normal"`. -/
theorem C1_partition_map_bands_witness :
    demo_partition_map (.fin (mkRat 3 10)) = some "Normal" :=
  ((C1_partition_map_bands (.fin (mkRat 3 10))).2.1 (mkRat 3 10) rfl
    (by norm_num [Rat.mkRat_eq_div])).2.1
    (by norm_num [Rat.mkRat_eq_div]) (by norm_num [Rat.mkRat_eq_div])

/-- Timestamp of the `j`-th record of a stream (0 when out of range). -/
def tsAt (records : List RuntimeStateRecord) (j : ℕ) : ℕ :=
  (records.map fun r => r.timestamp).getD j 0

/-- A violation of the temporal invariant at position `j` of a stream: the
record at `j + 1` has a strictly smaller timestamp than the one at `j`. -/
def violAt (records : List RuntimeStateRecord) (j : ℕ) : Prop :=
  j + 1 < records.length ∧ tsAt records (j + 1) < tsAt records j

theorem tsAt_cons_succ (r : RuntimeStateRecord) (l : List RuntimeStateRecord)
    (j : ℕ) : tsAt (r :: l) (j + 1) = tsAt l j := by
  simp [tsAt]

theorem tsAt_cons_zero (r : RuntimeStateRecord) (l : List RuntimeStateRecord) :
    tsAt (r :: l) 0 = r.timestamp := by
  simp [tsAt]

theorem violAt_cons_succ (r : RuntimeStateRecord) (l : List RuntimeStateRecord)
    (j : ℕ) : violAt (r :: l) (j + 1) ↔ violAt l j := by
  simp [violAt, tsAt_cons_succ, Nat.succ_lt_succ_iff]

theorem violAt_cons_zero (prev r : RuntimeStateRecord)
    (l : List RuntimeStateRecord) :
    violAt (prev :: r :: l) 0 ↔ r.timestamp < prev.timestamp := by
  simp [violAt, tsAt_cons_succ, tsAt_cons_zero]

theorem streamT1From_eq_some (rest : List RuntimeStateRecord) :
    ∀ (prev : RuntimeStateRecord) (k i : ℕ),
      streamT1From prev rest k = some i ↔
        ∃ j, i = k + j ∧ violAt (prev :: rest) j ∧
          ∀ l, l < j → ¬ violAt (prev :: rest) l := by
  induction rest with
  | nil =>
      intro prev k i
      simp only [streamT1From]
      constructor
      · intro h; cases h
      · rintro ⟨j, _, hv, _⟩
        exact absurd hv.1 (by simp [List.length])
  | cons r rest ih =>
      intro prev k i
      simp only [streamT1From]
      by_cases h : r.timestamp < prev.timestamp
      · rw [if_pos h]
        constructor
        · intro hi
          cases hi
          exact ⟨0, by omega, (violAt_cons_zero prev r rest).mpr h,
            fun l hl => absurd hl (Nat.not_lt_zero l)⟩
        · rintro ⟨j, hij, hv, hmin⟩
          cases j with
          | zero => simp [hij]
          | succ j' =>
              exact absurd ((violAt_cons_zero prev r rest).mpr h)
                (hmin 0 (Nat.succ_pos j'))
      · rw [if_neg h]
        rw [ih r (k + 1) i]
        constructor
        · rintro ⟨j, hij, hv, hmin⟩
          refine ⟨j + 1, by omega, (violAt_cons_succ prev (r :: rest) j).mpr hv,
            ?_⟩
          intro l hl
          cases l with
          | zero => exact fun hc => h ((violAt_cons_zero prev r rest).mp hc)
          | succ l' =>
              exact fun hc =>
                hmin l' (by omega) ((violAt_cons_succ prev (r :: rest) l').mp hc)
        · rintro ⟨j, hij, hv, hmin⟩
          cases j with
          | zero => exact absurd ((violAt_cons_zero prev r rest).mp hv) h
          | succ j' =>
              refine ⟨j', by omega,
                (violAt_cons_succ prev (r :: rest) j').mp hv, ?_⟩
              intro l hl hc
              exact hmin (l + 1) (by omega)
                ((violAt_cons_succ prev (r :: rest) l).mpr hc)

theorem streamT1From_eq_none (rest : List RuntimeStateRecord) :
    ∀ (prev : RuntimeStateRecord) (k : ℕ),
      streamT1From prev rest k = none ↔
        ∀ j, ¬ violAt (prev :: rest) j := by
  induction rest with
  | nil =>
      intro prev k
      simp only [streamT1From]
      constructor
      · intro _ j hv
        exact absurd hv.1 (by simp [List.length])
      · intro _; trivial
  | cons r rest ih =>
      intro prev k
      simp only [streamT1From]
      by_cases h : r.timestamp < prev.timestamp
      · rw [if_pos h]
        constructor
        · intro hc; cases hc
        · intro hall
          exact absurd ((violAt_cons_zero prev r rest).mpr h) (hall 0)
      · rw [if_neg h]
        rw [ih r (k + 1)]
        constructor
        · intro hall j
          cases j with
          | zero => exact fun hc => h ((violAt_cons_zero prev r rest).mp hc)
          | succ j' =>
              exact fun hc =>
                hall j' ((violAt_cons_succ prev (r :: rest) j').mp hc)
        · intro hall j hc
          exact hall (j + 1) ((violAt_cons_succ prev (r :: rest) j).mpr hc)

/-- A conforming record used to build concrete streams (timestamps vary,
everything else fixed, as in the crate's stream tests). -/
def mkStreamRec (t : ℕ) : RuntimeStateRecord :=
  { spec_version := SPEC_VERSION
    schema_version := SCHEMA_VERSION
    timestamp := t
    functions :=
      { baseline := .fin (mkRat 1 2), norm := .fin (mkRat 1 2),
        stability := .fin (mkRat 1 2), meta_control := .fin (mkRat 1 2) }
    stability_score := .fin (mkRat 1 2)
    risk_score := .fin (mkRat 1 2)
    mode := "Caution"
    risk_level := "L3" }

/-- C5: `validate_stream_t1` returns `some i` exactly when `i` is the
smallest positive index whose record's timestamp is strictly below its
predecessor's, and `none` when there is no strict decrease; equal
consecutive timestamps are never violations.  In particular the stream with
timestamps `[1000, 1000, 1001]` yields `none` and `[1001, 1000]` yields
`some 1`. -/
theorem C5_stream_first_decrease (records : List RuntimeStateRecord) (i : ℕ) :
    (validate_stream_t1 records = some i ↔
      0 < i ∧ i < records.length ∧
        tsAt records i < tsAt records (i - 1) ∧
        ∀ j, 0 < j → j < i → ¬ tsAt records j < tsAt records (j - 1))
  ∧ (validate_stream_t1 records = none ↔
      ∀ j, 0 < j → j < records.length →
        ¬ tsAt records j < tsAt records (j - 1))
  ∧ validate_stream_t1 [mkStreamRec 1000, mkStreamRec 1000, mkStreamRec 1001]
      = none
  ∧ validate_stream_t1 [mkStreamRec 1001, mkStreamRec 1000] = some 1 := by
  refine ⟨?_, ?_, by decide, by decide⟩
  · cases records with
    | nil =>
        constructor
        · intro h; cases h
        · rintro ⟨h0, hlen, -, -⟩
          simp only [List.length_nil] at hlen
          omega
    | cons r rest =>
        show streamT1From r rest 1 = some i ↔ _
        rw [streamT1From_eq_some]
        constructor
        · rintro ⟨j, hij, ⟨hlen, hts⟩, hmin⟩
          obtain rfl : i = j + 1 := by omega
          refine ⟨by omega, by omega, by simpa using hts, ?_⟩
          intro j' hj0 hji hc
          refine hmin (j' - 1) (by omega) ⟨by omega, ?_⟩
          have hj' : j' - 1 + 1 = j' := by omega
          rw [hj']
          exact hc
        · rintro ⟨h0, hlen, hts, hfirst⟩
          refine ⟨i - 1, by omega, ⟨by omega, ?_⟩, ?_⟩
          · have hi : i - 1 + 1 = i := by omega
            rw [hi]
            exact hts
          · intro l hl hv
            obtain ⟨hllen, hlts⟩ := hv
            exact hfirst (l + 1) (by omega) (by omega) (by simpa using hlts)
  · cases records with
    | nil =>
        constructor
        · intro _ j _ hlen
          simp only [List.length_nil] at hlen
          omega
        · intro _; rfl
    | cons r rest =>
        show streamT1From r rest 1 = none ↔ _
        rw [streamT1From_eq_none]
        constructor
        · intro hall j hj0 hjlen hc
          refine hall (j - 1) ⟨by omega, ?_⟩
          have hj : j - 1 + 1 = j := by omega
          rw [hj]
          exact hc
        · intro hall j hv
          obtain ⟨hlen, hts⟩ := hv
          exact hall (j + 1) (by omega) (by omega) (by simpa using hts)

/-- Witness for C5: on the concrete stream `[1001, 1000]` the theorem's
characterization produces the violation at index 1. -/
theorem C5_stream_first_decrease_witness :
    tsAt [mkStreamRec 1001, mkStreamRec 1000] 1
      < tsAt [mkStreamRec 1001, mkStreamRec 1000] (1 - 1) :=
  ((C5_stream_first_decrease [mkStreamRec 1001, mkStreamRec 1000] 1).1.mp
    (by decide)).2.2.1

/-- C2: `validate_all` always returns exactly 12 results carrying the ids
R1,R2,R3,R4,C1,C2,C3,S1,S2,S3,S4,T1 in that order; the C3 result passes
exactly when the C1 and C2 results both pass; and `is_valid` is the
conjunction of all twelve `passed` flags. -/
theorem C2_validate_all_structure (r : RuntimeStateRecord) :
    (validate_all r).map (fun res => res.id) =
      ["INV-R1", "INV-R2", "INV-R3", "INV-R4", "INV-C1", "INV-C2", "INV-C3",
       "INV-S1", "INV-S2", "INV-S3", "INV-S4", "INV-T1"]
  ∧ (validate_all r).length = 12
  ∧ ((validate_all r).getD 6 check_inv_t1_note).passed
      = (((validate_all r).getD 4 check_inv_t1_note).passed
        && ((validate_all r).getD 5 check_inv_t1_note).passed)
  ∧ is_valid r = (validate_all r).all (fun res => res.passed)
  ∧ (is_valid r = true ↔ ∀ res ∈ validate_all r, res.passed = true) := by
  refine ⟨rfl, rfl, rfl, rfl, ?_⟩
  rw [is_valid, List.all_eq_true]

/-- C4: starting from any record on which all twelve checks pass, setting
the timestamp to 0 makes exactly the INV-R4 result fail, and setting any one
of the four `Functions` fields to `1.5` makes exactly the INV-R1 result
fail; the other eleven results keep passing in each case. -/
theorem C4_single_flip_isolation (r : RuntimeStateRecord)
    (h : is_valid r = true) :
    ((validate_all { r with timestamp := 0 }).map fun res => res.passed)
      = [true, true, true, false, true, true, true, true, true, true, true,
         true]
  ∧ ((validate_all
        { r with functions :=
            { r.functions with baseline := .fin (mkRat 3 2) } }).map
      fun res => res.passed)
      = [false, true, true, true, true, true, true, true, true, true, true,
         true]
  ∧ ((validate_all
        { r with functions :=
            { r.functions with norm := .fin (mkRat 3 2) } }).map
      fun res => res.passed)
      = [false, true, true, true, true, true, true, true, true, true, true,
         true]
  ∧ ((validate_all
        { r with functions :=
            { r.functions with stability := .fin (mkRat 3 2) } }).map
      fun res => res.passed)
      = [false, true, true, true, true, true, true, true, true, true, true,
         true]
  ∧ ((validate_all
        { r with functions :=
            { r.functions with meta_control := .fin (mkRat 3 2) } }).map
      fun res => res.passed)
      = [false, true, true, true, true, true, true, true, true, true, true,
         true] := by
  simp only [is_valid, validate_all, List.all_cons, List.all_nil,
    Bool.and_true, Bool.and_eq_true] at h
  obtain ⟨h1, h2, h3, h4, h5, h6, h7, h8, h9, h10, h11, h12⟩ := h
  refine ⟨?_, ?_, ?_, ?_, ?_⟩
  · show [(check_inv_r1 r).passed, (check_inv_r2 r).passed,
      (check_inv_r3 r).passed, false, (check_inv_c1 r).passed,
      (check_inv_c2 r).passed,
      (check_inv_c1 r).passed && (check_inv_c2 r).passed,
      (check_inv_s1 r).passed, true, (check_inv_s3 r).passed,
      (check_inv_s4 r).passed, true] = _
    simp [h1, h2, h3, h5, h6, h8, h10, h11]
  · show [false, (check_inv_r2 r).passed,
      (check_inv_r3 r).passed, (check_inv_r4 r).passed,
      (check_inv_c1 r).passed, (check_inv_c2 r).passed,
      (check_inv_c1 r).passed && (check_inv_c2 r).passed,
      (check_inv_s1 r).passed, true, (check_inv_s3 r).passed,
      (check_inv_s4 r).passed, true] = _
    simp [h2, h3, h4, h5, h6, h8, h10, h11]
  · show [in_range r.functions.baseline && false
        && in_range r.functions.stability && in_range r.functions.meta_control,
      (check_inv_r2 r).passed,
      (check_inv_r3 r).passed, (check_inv_r4 r).passed,
      (check_inv_c1 r).passed, (check_inv_c2 r).passed,
      (check_inv_c1 r).passed && (check_inv_c2 r).passed,
      (check_inv_s1 r).passed, true, (check_inv_s3 r).passed,
      (check_inv_s4 r).passed, true] = _
    simp [h2, h3, h4, h5, h6, h8, h10, h11]
  · show [in_range r.functions.baseline && in_range r.functions.norm
        && false && in_range r.functions.meta_control,
      (check_inv_r2 r).passed,
      (check_inv_r3 r).passed, (check_inv_r4 r).passed,
      (check_inv_c1 r).passed, (check_inv_c2 r).passed,
      (check_inv_c1 r).passed && (check_inv_c2 r).passed,
      (check_inv_s1 r).passed, true, (check_inv_s3 r).passed,
      (check_inv_s4 r).passed, true] = _
    simp [h2, h3, h4, h5, h6, h8, h10, h11]
  · show [in_range r.functions.baseline && in_range r.functions.norm
        && in_range r.functions.stability && false,
      (check_inv_r2 r).passed,
      (check_inv_r3 r).passed, (check_inv_r4 r).passed,
      (check_inv_c1 r).passed, (check_inv_c2 r).passed,
      (check_inv_c1 r).passed && (check_inv_c2 r).passed,
      (check_inv_s1 r).passed, true, (check_inv_s3 r).passed,
      (check_inv_s4 r).passed, true] = _
    simp [h2, h3, h4, h5, h6, h8, h10, h11]

/-- Witness for C4 at the concrete conforming record `mkStreamRec 1000`:
zeroing its timestamp flips exactly INV-R4. -/
theorem C4_single_flip_isolation_witness :
    is_valid (mkStreamRec 1000) = true ∧
    ((validate_all { mkStreamRec 1000 with timestamp := 0 }).map
        fun res => res.passed)
      = [true, true, true, false, true, true, true, true, true, true, true,
         true] :=
  ⟨by decide, (C4_single_flip_isolation (mkStreamRec 1000) (by decide)).1⟩

/-- Joining with a separator character: left inverse of `splitOnChar`. -/
def joinSep (c : Char) : List (List Char) → List Char
  | [] => []
  | [a] => a
  | a :: rest => a ++ c :: joinSep c rest

theorem splitOnChar_ne_nil (c : Char) (l : List Char) :
    splitOnChar c l ≠ [] := by
  cases l with
  | nil => simp [splitOnChar]
  | cons x xs =>
      simp only [splitOnChar]
      by_cases h : x = c
      · simp [h]
      · rw [if_neg h]
        rcases hs : splitOnChar c xs with - | ⟨p, t⟩ <;> simp

theorem splitOnChar_single (c : Char) (a : List Char) (h : c ∉ a) :
    splitOnChar c a = [a] := by
  induction a with
  | nil => rfl
  | cons x xs ih =>
      have hx : ¬ x = c := fun e => h (by simp [e])
      have hxs : c ∉ xs := fun hm => h (List.mem_cons_of_mem _ hm)
      simp [splitOnChar, if_neg hx, ih hxs]

theorem splitOnChar_append (c : Char) (a rest : List Char) (h : c ∉ a) :
    splitOnChar c (a ++ c :: rest) = a :: splitOnChar c rest := by
  induction a with
  | nil => simp [splitOnChar]
  | cons x xs ih =>
      have hx : ¬ x = c := fun e => h (by simp [e])
      have hxs : c ∉ xs := fun hm => h (List.mem_cons_of_mem _ hm)
      simp only [List.cons_append, splitOnChar, if_neg hx]
      rw [List.append_eq, ih hxs]

theorem splitOnChar_join (c : Char) (l : List Char) :
    joinSep c (splitOnChar c l) = l := by
  induction l with
  | nil => rfl
  | cons x xs ih =>
      simp only [splitOnChar]
      by_cases h : x = c
      · rw [if_pos h]
        rcases hs : splitOnChar c xs with - | ⟨p, t⟩
        · exact absurd hs (splitOnChar_ne_nil c xs)
        · rw [hs] at ih
          subst h
          simpa [joinSep] using ih
      · rw [if_neg h]
        rcases hs : splitOnChar c xs with - | ⟨p, t⟩
        · exact absurd hs (splitOnChar_ne_nil c xs)
        · rw [hs] at ih
          cases t with
          | nil => simpa [joinSep] using ih
          | cons u v => simpa [joinSep] using ih

theorem splitOnChar_mem_not (c : Char) (l : List Char) :
    ∀ p ∈ splitOnChar c l, c ∉ p := by
  induction l with
  | nil =>
      intro p hp
      simp only [splitOnChar, List.mem_singleton] at hp
      simp [hp]
  | cons x xs ih =>
      intro p hp
      simp only [splitOnChar] at hp
      by_cases h : x = c
      · rw [if_pos h] at hp
        rcases List.mem_cons.mp hp with hp | hp
        · simp [hp]
        · exact ih p hp
      · rw [if_neg h] at hp
        rcases hs : splitOnChar c xs with - | ⟨q, t⟩
        · exact absurd hs (splitOnChar_ne_nil c xs)
        · rw [hs] at hp
          rcases List.mem_cons.mp hp with hp | hp
          · subst hp
            intro hc
            rcases List.mem_cons.mp hc with hc | hc
            · exact h hc.symm
            · exact ih q (by rw [hs]; exact List.mem_cons_self q t) hc
          · exact ih p (by rw [hs]; exact List.mem_cons_of_mem q hp)

/-- `splitOnChar` yields exactly the three pieces `[a, b, d]` iff the input
is their separator-joined concatenation and no piece contains the
separator. -/
theorem splitOnChar_eq_three_iff (c : Char) (l a b d : List Char) :
    splitOnChar c l = [a, b, d] ↔
      l = a ++ c :: (b ++ c :: d) ∧ c ∉ a ∧ c ∉ b ∧ c ∉ d := by
  constructor
  · intro h
    have ha : c ∉ a := splitOnChar_mem_not c l a (by rw [h]; simp)
    have hb : c ∉ b := splitOnChar_mem_not c l b (by rw [h]; simp)
    have hd : c ∉ d := splitOnChar_mem_not c l d (by rw [h]; simp)
    have hj := splitOnChar_join c l
    rw [h] at hj
    simp only [joinSep] at hj
    exact ⟨hj.symm, ha, hb, hd⟩
  · rintro ⟨rfl, ha, hb, hd⟩
    rw [splitOnChar_append c a _ ha, splitOnChar_append c b _ hb,
      splitOnChar_single c d hd]

/-- A component accepted by Rust's `str::parse::<u32>()`: an optional
leading `'+'` followed by one or more ASCII digits denoting a value below
`2^32`. -/
def u32Numeral (p : List Char) : Prop :=
  ∃ ds : List Char, (p = ds ∨ p = '+' :: ds) ∧ ds ≠ [] ∧
    (∀ ch ∈ ds, ch.isDigit = true) ∧ digitsVal ds < 2 ^ 32

/-- `parseU32` succeeds exactly on `u32Numeral` components. -/
theorem parseU32_isSome_iff (p : List Char) :
    (parseU32 p).isSome = true ↔ u32Numeral p := by
  cases p with
  | nil =>
      constructor
      · intro h
        simp [parseU32] at h
      · rintro ⟨ds, hds | hds, hne, -, -⟩
        · exact (hne hds.symm).elim
        · exact absurd hds (by simp)
  | cons x xs =>
      by_cases hx : x = '+'
      · subst hx
        have hd : ('+' :: xs).head? = some '+' := rfl
        constructor
        · intro h
          simp only [parseU32, hd, if_pos, List.tail_cons] at h
          by_cases h0 : xs = []
          · rw [if_pos h0] at h
            simp at h
          · rw [if_neg h0] at h
            by_cases h1 : xs.all Char.isDigit
            · rw [if_pos h1] at h
              by_cases h2 : digitsVal xs < 2 ^ 32
              · exact ⟨xs, Or.inr rfl, h0,
                  fun ch hch => List.all_eq_true.mp h1 ch hch, h2⟩
              · rw [if_neg h2] at h
                simp at h
            · rw [if_neg h1] at h
              simp at h
        · rintro ⟨ds, hds | hds, hne, hdig, hval⟩
          · have hm : '+' ∈ ds := by rw [← hds]; exact List.mem_cons_self _ _
            have := hdig '+' hm
            simp [Char.isDigit] at this
          · have hxs : xs = ds := by injection hds
            subst hxs
            simp only [parseU32, hd, if_pos, List.tail_cons, if_neg hne,
              if_pos (List.all_eq_true.mpr hdig), if_pos hval]
            rfl
      · have hd : ¬ (x :: xs).head? = some '+' := by simp [hx]
        constructor
        · intro h
          simp only [parseU32, if_neg hd] at h
          rw [if_neg (by simp)] at h
          by_cases h1 : (x :: xs).all Char.isDigit
          · rw [if_pos h1] at h
            by_cases h2 : digitsVal (x :: xs) < 2 ^ 32
            · exact ⟨x :: xs, Or.inl rfl, by simp,
                fun ch hch => List.all_eq_true.mp h1 ch hch, h2⟩
            · rw [if_neg h2] at h
              simp at h
          · rw [if_neg h1] at h
            simp at h
        · rintro ⟨ds, hds | hds, hne, hdig, hval⟩
          · subst hds
            simp only [parseU32, if_neg hd, if_neg (by simp : ¬(x :: xs) = []),
              if_pos (List.all_eq_true.mpr hdig), if_pos hval]
            rfl
          · have h1 : x = '+' := by injection hds
            exact absurd h1 hx

theorem u32Numeral_no_dot (p : List Char) (h : u32Numeral p) : '.' ∉ p := by
  obtain ⟨ds, hds | hds, hne, hdig, -⟩ := h <;> subst hds
  · intro hm
    have := hdig '.' hm
    simp [Char.isDigit] at this
  · intro hm
    rcases List.mem_cons.mp hm with hc | hc
    · exact absurd hc (by decide)
    · have := hdig '.' hc
      simp [Char.isDigit] at this

/-- A record with a chosen `schema_version` and all other fields conforming
(used to exercise INV-S4 in isolation). -/
def mkVersionRec (v : String) : RuntimeStateRecord :=
  { mkStreamRec 1000 with schema_version := v }

/-- C8 (amended): the INV-S4 result passes iff `schema_version` splits on
`'.'` into exactly three components, each of which is accepted by Rust's
`u32` parser: an optional leading `'+'` followed by one or more ASCII
digits denoting a value below `2^32`. -/
theorem C8_inv_s4_amended (r : RuntimeStateRecord) :
    (check_inv_s4 r).passed = true ↔
      ∃ a b d : List Char,
        r.schema_version.data = a ++ '.' :: (b ++ '.' :: d) ∧
        u32Numeral a ∧ u32Numeral b ∧ u32Numeral d := by
  have hpassed : (check_inv_s4 r).passed
      = (decide ((splitOnChar '.' r.schema_version.data).length = 3)
        && (splitOnChar '.' r.schema_version.data).all
            fun p => (parseU32 p).isSome) := rfl
  rw [hpassed, Bool.and_eq_true, decide_eq_true_eq, List.all_eq_true]
  constructor
  · rintro ⟨hlen, hall⟩
    obtain ⟨a, b, d, hparts⟩ := List.length_eq_three.mp hlen
    obtain ⟨heq, -, -, -⟩ := (splitOnChar_eq_three_iff '.' _ a b d).mp hparts
    refine ⟨a, b, d, heq, ?_, ?_, ?_⟩
    · exact (parseU32_isSome_iff a).mp (hall a (by rw [hparts]; simp))
    · exact (parseU32_isSome_iff b).mp (hall b (by rw [hparts]; simp))
    · exact (parseU32_isSome_iff d).mp (hall d (by rw [hparts]; simp))
  · rintro ⟨a, b, d, heq, ha, hb, hd⟩
    have hsplit : splitOnChar '.' r.schema_version.data = [a, b, d] :=
      (splitOnChar_eq_three_iff '.' _ a b d).mpr
        ⟨heq, u32Numeral_no_dot a ha, u32Numeral_no_dot b hb,
         u32Numeral_no_dot d hd⟩
    rw [hsplit]
    refine ⟨rfl, ?_⟩
    intro p hp
    simp only [List.mem_cons, List.not_mem_nil, or_false] at hp
    rcases hp with rfl | rfl | rfl
    · exact (parseU32_isSome_iff p).mpr ha
    · exact (parseU32_isSome_iff p).mpr hb
    · exact (parseU32_isSome_iff p).mpr hd

/-- Counterexample to C8 as stated: `"4294967296.0.0"` is of the form
`A.B.C` with all-digit components, yet INV-S4 fails on it (the first
component exceeds `u32::MAX`); conversely `"+1.0.0"` passes although its
first component is not a plain decimal numeral. -/
theorem C8_inv_s4_counterexample :
    ("4294967296.0.0".data
        = "4294967296".data ++ '.' :: ("0".data ++ '.' :: "0".data)
      ∧ "4294967296".data ≠ []
      ∧ (∀ ch ∈ "4294967296".data, ch.isDigit = true)
      ∧ (∀ ch ∈ "0".data, ch.isDigit = true)
      ∧ (check_inv_s4 (mkVersionRec "4294967296.0.0")).passed = false)
  ∧ ((check_inv_s4 (mkVersionRec "+1.0.0")).passed = true
      ∧ '+'.isDigit = false) := by decide

/-- Witness for the amended C8 at the canonical version string `"1.0.0"`. -/
theorem C8_inv_s4_amended_witness :
    (check_inv_s4 (mkVersionRec "1.0.0")).passed = true :=
  (C8_inv_s4_amended (mkVersionRec "1.0.0")).mpr
    ⟨"1".data, "0".data, "0".data, by decide,
     ⟨"1".data, Or.inl rfl, by decide, by decide, by decide⟩,
     ⟨"0".data, Or.inl rfl, by decide, by decide, by decide⟩,
     ⟨"0".data, Or.inl rfl, by decide, by decide, by decide⟩⟩

/-- A raw emitter input the spec calls invalid: not-a-number, infinite, or
outside `[0, 1]`. -/
def rawInvalid (v : F64) : Prop :=
  v = .nan ∨ v = .inf true ∨ v = .inf false ∨
    ∃ q, v = .fin q ∧ (q < 0 ∨ 1 < q)

theorem checkInputs_cons_invalid (name : String) (v : F64)
    (rest : List (String × F64)) (hv : rawInvalid v) :
    ∃ e, checkInputs ((name, v) :: rest) = some e ∧ name.data <:+: e.data
      ∧ (v.isNan = false → v.isInfinite = false →
          (v.fmt).data <:+: e.data) := by
  have hpre : ∀ suffix : String, name.data <:+: (name ++ suffix).data := by
    intro suffix
    have hp : name.data <+: (name ++ suffix).data :=
      ⟨suffix.data, by rw [String.data_append]⟩
    exact hp.isInfix
  rcases hv with rfl | rfl | rfl | ⟨q, rfl, hq⟩
  · exact ⟨name ++ " is NaN or infinite", rfl, hpre _,
      fun hna _ => absurd hna (by decide)⟩
  · exact ⟨name ++ " is NaN or infinite", rfl, hpre _,
      fun _ hin => absurd hin (by decide)⟩
  · exact ⟨name ++ " is NaN or infinite", rfl, hpre _,
      fun _ hin => absurd hin (by decide)⟩
  · refine ⟨name ++ " = " ++ (F64.fin q).fmt ++ " is outside [0.0, 1.0]",
      ?_, ?_, ?_⟩
    · have hgate : ((F64.fin 0).ble (.fin q) && (F64.fin q).ble (.fin 1))
          = false := by
        simp only [F64.ble_fin, Bool.and_eq_false_iff, decide_eq_false_iff_not,
          not_le]
        rcases hq with hq | hq
        · exact Or.inl hq
        · exact Or.inr hq
      simp only [checkInputs, F64.isNan, F64.isInfinite, Bool.or_self,
        Bool.false_or, Bool.or_false, hgate]
      rw [if_neg (by simp), if_pos (by simp)]
    · have h2 := hpre (" = " ++ (F64.fin q).fmt ++ " is outside [0.0, 1.0]")
      simpa [String.append_assoc] using h2
    · intro _ _
      refine ⟨(name ++ " = ").data, " is outside [0.0, 1.0]".data, ?_⟩
      simp [String.data_append, List.append_assoc]
  
theorem checkInputs_cons_valid (name : String) (v : F64)
    (rest : List (String × F64)) (hv : ¬ rawInvalid v) :
    checkInputs ((name, v) :: rest) = checkInputs rest := by
  cases v with
  | nan => exact absurd (Or.inl rfl) hv
  | inf bb =>
      cases bb
      · exact absurd (Or.inr (Or.inr (Or.inl rfl))) hv
      · exact absurd (Or.inr (Or.inl rfl)) hv
  | fin q =>
      have hq : ¬ (q < 0 ∨ 1 < q) := fun hc =>
        hv (Or.inr (Or.inr (Or.inr ⟨q, rfl, hc⟩)))
      push_neg at hq
      simp only [checkInputs, F64.isNan, F64.isInfinite, F64.ble_fin,
        Bool.or_self, Bool.false_or, Bool.or_false]
      rw [if_neg (by simp), if_neg (by simp [hq.1, hq.2])]

theorem emit_error_of_check (now : ℕ) (b n s m : F64) (ts : Option ℕ)
    (e : String)
    (h : checkInputs [("baseline", b), ("norm", n), ("stability", s),
      ("meta_control", m)] = some e) :
    emit_demo_record now b n s m ts = .error e := by
  unfold emit_demo_record
  rw [h]

/-- C6 (amended): whenever some raw input to the emitter is NaN, infinite,
or outside `[0, 1]`, the emitter returns an error (never a record) whose
message contains the name of an offending field — and also the rendering of
its value whenever that value is finite; the NaN/infinite rejection message
names only the field.  In particular `norm = 1.5` with all other inputs
valid produces an error containing both `"norm"` and `"1.5"`. -/
theorem C6_emitter_input_rejection (now : ℕ) (b n s m : F64) (ts : Option ℕ)
    (h : rawInvalid b ∨ rawInvalid n ∨ rawInvalid s ∨ rawInvalid m) :
    (∃ e name v, emit_demo_record now b n s m ts = .error e
      ∧ (name, v) ∈ [("baseline", b), ("norm", n), ("stability", s),
          ("meta_control", m)]
      ∧ rawInvalid v ∧ name.data <:+: e.data
      ∧ (v.isNan = false → v.isInfinite = false → (v.fmt).data <:+: e.data))
  ∧ emit_demo_record 0 (.fin (mkRat 1 2)) (.fin (mkRat 3 2))
      (.fin (mkRat 1 2)) (.fin (mkRat 1 2)) (some 1000)
      = .error "norm = 1.5 is outside [0.0, 1.0]"
  ∧ "norm".data <:+: "norm = 1.5 is outside [0.0, 1.0]".data
  ∧ "1.5".data <:+: "norm = 1.5 is outside [0.0, 1.0]".data := by
  refine ⟨?_, by rfl, by decide, by decide⟩
  by_cases hb : rawInvalid b
  · obtain ⟨e, hce, hpre, hval⟩ := checkInputs_cons_invalid "baseline" b
      [("norm", n), ("stability", s), ("meta_control", m)] hb
    exact ⟨e, "baseline", b, emit_error_of_check now b n s m ts e hce,
      by simp, hb, hpre, hval⟩
  · by_cases hn : rawInvalid n
    · obtain ⟨e, hce, hpre, hval⟩ := checkInputs_cons_invalid "norm" n
        [("stability", s), ("meta_control", m)] hn
      refine ⟨e, "norm", n, emit_error_of_check now b n s m ts e ?_,
        by simp, hn, hpre, hval⟩
      rw [checkInputs_cons_valid "baseline" b _ hb]
      exact hce
    · by_cases hs : rawInvalid s
      · obtain ⟨e, hce, hpre, hval⟩ := checkInputs_cons_invalid "stability" s
          [("meta_control", m)] hs
        refine ⟨e, "stability", s, emit_error_of_check now b n s m ts e ?_,
          by simp, hs, hpre, hval⟩
        rw [checkInputs_cons_valid "baseline" b _ hb,
          checkInputs_cons_valid "norm" n _ hn]
        exact hce
      · by_cases hm : rawInvalid m
        · obtain ⟨e, hce, hpre, hval⟩ :=
            checkInputs_cons_invalid "meta_control" m [] hm
          refine ⟨e, "meta_control", m,
            emit_error_of_check now b n s m ts e ?_, by simp, hm, hpre, hval⟩
          rw [checkInputs_cons_valid "baseline" b _ hb,
            checkInputs_cons_valid "norm" n _ hn,
            checkInputs_cons_valid "stability" s _ hs]
          exact hce
        · rcases h with h | h | h | h
          · exact absurd h hb
          · exact absurd h hn
          · exact absurd h hs
          · exact absurd h hm

/-- Counterexample to C6 as stated: with `baseline = -∞` the emitter's
error is exactly `"baseline is NaN or infinite"` — it names the field but
contains no rendering of the offending value (`"-inf"` is not a substring
of it), so the message does not identify the value. -/
theorem C6_value_omitted_counterexample :
    emit_demo_record 0 (.inf true) (.fin (mkRat 1 2)) (.fin (mkRat 1 2))
        (.fin (mkRat 1 2)) (some 1000) = .error "baseline is NaN or infinite"
  ∧ (F64.inf true).fmt = "-inf"
  ∧ ¬ ("-inf".data <:+: "baseline is NaN or infinite".data) :=
  ⟨rfl, rfl, by decide⟩

/-- Witness for the amended C6 at a finite out-of-range input
(`baseline = 1.5`), exercising the value clause. -/
theorem C6_emitter_input_rejection_witness :
    ∃ e name v, emit_demo_record 0 (.fin (mkRat 3 2)) (.fin (mkRat 1 2))
        (.fin (mkRat 1 2)) (.fin (mkRat 1 2)) (some 1000) = .error e
      ∧ (name, v) ∈ [("baseline", F64.fin (mkRat 3 2)),
          ("norm", F64.fin (mkRat 1 2)),
          ("stability", F64.fin (mkRat 1 2)),
          ("meta_control", F64.fin (mkRat 1 2))]
      ∧ rawInvalid v ∧ name.data <:+: e.data
      ∧ (v.isNan = false → v.isInfinite = false →
          (v.fmt).data <:+: e.data) :=
  (C6_emitter_input_rejection 0 (.fin (mkRat 3 2)) (.fin (mkRat 1 2))
    (.fin (mkRat 1 2)) (.fin (mkRat 1 2)) (some 1000)
    (Or.inl (Or.inr (Or.inr (Or.inr ⟨mkRat 3 2, rfl,
      Or.inr (by norm_num [Rat.mkRat_eq_div])⟩))))).1

/-- The record the spec's end-to-end example expects from
`Emitter(0.25, 0.70, 0.30, 0.20, 1707500000)`. -/
def c7Record : RuntimeStateRecord :=
  { spec_version := "pmatrix-3.5"
    schema_version := "1.0.0"
    timestamp := 1707500000
    functions :=
      { baseline := .fin (mkRat 25 100), norm := .fin (mkRat 70 100),
        stability := .fin (mkRat 30 100), meta_control := .fin (mkRat 20 100) }
    stability_score := .fin (mkRat 3625 10000)
    risk_score := .fin (mkRat 6375 10000)
    mode := "Alert"
    risk_level := "L4" }

/-- C7: the end-to-end example — `emit_demo_record(0.25, 0.70, 0.30, 0.20,
1707500000)` returns exactly the record with `stability_score = 0.3625`,
`risk_score = 0.6375`, mode `"Alert"`, risk level `"L4"`, the two version
constants — and that record passes all twelve invariant checks. -/
theorem C7_end_to_end_example :
    emit_demo_record 0 (.fin (mkRat 25 100)) (.fin (mkRat 70 100))
        (.fin (mkRat 30 100)) (.fin (mkRat 20 100)) (some 1707500000)
      = .ok c7Record
  ∧ c7Record.stability_score = .fin (mkRat 3625 10000)
  ∧ c7Record.risk_score = .fin (mkRat 6375 10000)
  ∧ c7Record.mode = "Alert"
  ∧ c7Record.risk_level = "L4"
  ∧ c7Record.spec_version = SPEC_VERSION
  ∧ c7Record.schema_version = SCHEMA_VERSION
  ∧ c7Record.timestamp = 1707500000
  ∧ ((validate_all c7Record).map fun res => res.passed)
      = [true, true, true, true, true, true, true, true, true, true, true,
         true]
  ∧ is_valid c7Record = true := by
  refine ⟨by rfl, by decide, by decide, rfl, rfl, rfl, rfl, rfl,
    by decide, by decide⟩

theorem not_rawInvalid_fin (q : ℚ) (h0 : 0 ≤ q) (h1 : q ≤ 1) :
    ¬ rawInvalid (.fin q) := by
  rintro (h | h | h | ⟨q', hq, hlt | hlt⟩)
  · exact F64.noConfusion h
  · exact F64.noConfusion h
  · exact F64.noConfusion h
  · injection hq with he
    subst he
    linarith
  · injection hq with he
    subst he
    linarith

theorem demo_stability_score_fin (qb qn qs qm : ℚ) :
    demo_stability_score
      { baseline := .fin qb, norm := .fin qn, stability := .fin qs,
        meta_control := .fin qm } = .fin ((qb + qn + qs + qm) / 4) := by
  simp only [demo_stability_score, F64.add, ratAdd_eq, F64.div]
  rw [if_neg (by norm_num), ratDiv_eq _ _ (by norm_num)]

theorem demo_risk_score_fin (x : ℚ) :
    demo_risk_score (.fin x) = .fin (1 - x) := by
  simp only [demo_risk_score, F64.sub, ratSub_eq]

theorem demo_partition_map_total (q : ℚ) (h0 : 0 ≤ q) (h1 : q ≤ 1) :
    ∃ mo lv, demo_partition_map (.fin q) = some mo ∧ mo ∈ MODES ∧
      mode_to_risk_level mo = some lv := by
  rw [demo_partition_map_fin, if_neg (by push_neg; exact ⟨h0, h1⟩)]
  split_ifs <;> exact ⟨_, _, rfl, by decide, rfl⟩

/-- On in-range finite inputs the emitter succeeds, and the returned record
is built from the two version constants, the resolved timestamp, the given
functions, the mean-based scores, and the partition map's mode/level. -/
theorem emit_ok_of_valid (now : ℕ) (qb qn qs qm : ℚ) (ts : Option ℕ)
    (hb0 : 0 ≤ qb) (hb1 : qb ≤ 1) (hn0 : 0 ≤ qn) (hn1 : qn ≤ 1)
    (hs0 : 0 ≤ qs) (hs1 : qs ≤ 1) (hm0 : 0 ≤ qm) (hm1 : qm ≤ 1) :
    ∃ r : RuntimeStateRecord,
      emit_demo_record now (.fin qb) (.fin qn) (.fin qs) (.fin qm) ts = .ok r
      ∧ r.spec_version = SPEC_VERSION
      ∧ r.schema_version = SCHEMA_VERSION
      ∧ r.timestamp = ts.getD now
      ∧ r.functions = { baseline := .fin qb, norm := .fin qn,
                        stability := .fin qs, meta_control := .fin qm }
      ∧ r.stability_score = .fin ((qb + qn + qs + qm) / 4)
      ∧ r.risk_score = .fin (1 - (qb + qn + qs + qm) / 4)
      ∧ r.mode ∈ MODES
      ∧ demo_partition_map r.risk_score = some r.mode
      ∧ mode_to_risk_level r.mode = some r.risk_level := by
  have hnone : checkInputs [("baseline", F64.fin qb), ("norm", F64.fin qn),
      ("stability", F64.fin qs), ("meta_control", F64.fin qm)] = none := by
    rw [checkInputs_cons_valid _ _ _ (not_rawInvalid_fin qb hb0 hb1),
      checkInputs_cons_valid _ _ _ (not_rawInvalid_fin qn hn0 hn1),
      checkInputs_cons_valid _ _ _ (not_rawInvalid_fin qs hs0 hs1),
      checkInputs_cons_valid _ _ _ (not_rawInvalid_fin qm hm0 hm1)]
    rfl
  have hmean0 : 0 ≤ (qb + qn + qs + qm) / 4 := by positivity
  have hmean1 : (qb + qn + qs + qm) / 4 ≤ 1 := by
    rw [div_le_one (by norm_num)]
    linarith
  have hr0 : 0 ≤ 1 - (qb + qn + qs + qm) / 4 := by linarith
  have hr1 : 1 - (qb + qn + qs + qm) / 4 ≤ 1 := by linarith
  obtain ⟨mo, lv, hmo, hmem, hlv⟩ :=
    demo_partition_map_total (1 - (qb + qn + qs + qm) / 4) hr0 hr1
  refine ⟨{ spec_version := SPEC_VERSION, schema_version := SCHEMA_VERSION,
            timestamp := ts.getD now,
            functions := { baseline := .fin qb, norm := .fin qn,
                           stability := .fin qs, meta_control := .fin qm },
            stability_score := .fin ((qb + qn + qs + qm) / 4),
            risk_score := .fin (1 - (qb + qn + qs + qm) / 4),
            mode := mo, risk_level := lv },
    ?_, rfl, rfl, rfl, rfl, rfl, rfl, hmem, hmo, hlv⟩
  unfold emit_demo_record
  rw [hnone]
  simp only [demo_stability_score_fin, demo_risk_score_fin, hmo, hlv]

theorem mode_nonempty_of_mem (mo : String) (h : mo ∈ MODES) :
    mo.isEmpty = false := by
  have h5 : mo = "Optimal" ∨ mo = "Normal" ∨ mo = "Caution" ∨ mo = "Alert"
      ∨ mo = "Halt" := by simpa [ MODES ] using h
  rcases h5 with rfl | rfl | rfl | rfl | rfl <;> decide

theorem level_nonempty_of_map (mo lv : String)
    (h : mode_to_risk_level mo = some lv) : lv.isEmpty = false := by
  unfold mode_to_risk_level at h
  split_ifs at h <;> injection h with h2 <;> subst h2 <;> decide

/-- C3 (amended): for all four finite inputs in `[0, 1]` and every optional
timestamp whose resolved value is positive, the emitter returns `Ok` of a
record satisfying all four range invariants and all four structural
invariants. -/
theorem C3_emitted_record_invariants (now : ℕ) (qb qn qs qm : ℚ)
    (ts : Option ℕ)
    (hb0 : 0 ≤ qb) (hb1 : qb ≤ 1) (hn0 : 0 ≤ qn) (hn1 : qn ≤ 1)
    (hs0 : 0 ≤ qs) (hs1 : qs ≤ 1) (hm0 : 0 ≤ qm) (hm1 : qm ≤ 1)
    (hts : 0 < ts.getD now) :
    ∃ r : RuntimeStateRecord,
      emit_demo_record now (.fin qb) (.fin qn) (.fin qs) (.fin qm) ts = .ok r
      ∧ (check_inv_r1 r).passed = true
      ∧ (check_inv_r2 r).passed = true
      ∧ (check_inv_r3 r).passed = true
      ∧ (check_inv_r4 r).passed = true
      ∧ (check_inv_s1 r).passed = true
      ∧ (check_inv_s2 r).passed = true
      ∧ (check_inv_s3 r).passed = true
      ∧ (check_inv_s4 r).passed = true := by
  obtain ⟨r, hok, hspec, hschema, htime, hfns, hss, hrs, hmem, hmo, hlv⟩ :=
    emit_ok_of_valid now qb qn qs qm ts hb0 hb1 hn0 hn1 hs0 hs1 hm0 hm1
  have hmean0 : 0 ≤ (qb + qn + qs + qm) / 4 := by positivity
  have hmean1 : (qb + qn + qs + qm) / 4 ≤ 1 := by
    rw [div_le_one (by norm_num)]
    linarith
  refine ⟨r, hok, ?_, ?_, ?_, ?_, ?_, rfl, ?_, ?_⟩
  · simp [check_inv_r1, hfns, in_range, F64.ble_fin, F64.isNan,
      hb0, hb1, hn0, hn1, hs0, hs1, hm0, hm1]
  · simp [check_inv_r2, hss, F64.ble_fin, F64.isNan, hmean0, hmean1]
  · simp [check_inv_r3, hrs, F64.ble_fin, F64.isNan]
    constructor <;> linarith
  · simp [check_inv_r4, htime]
    omega
  · simp [check_inv_s1, hspec, hschema, SPEC_VERSION, SCHEMA_VERSION,
      mode_nonempty_of_mem r.mode hmem,
      level_nonempty_of_map r.mode r.risk_level hlv]
    decide
  · simp [check_inv_s3, hspec]
  · have hp : (check_inv_s4 r).passed
        = ((splitOnChar '.' r.schema_version.data).length = 3
          && (splitOnChar '.' r.schema_version.data).all
              fun p => (parseU32 p).isSome) := rfl
    rw [hp, hschema]
    decide

/-- Counterexample to C3 as stated: with the explicit timestamp `Some 0`
the emitter still returns `Ok`, but the returned record violates INV-R4. -/
theorem C3_timestamp_zero_counterexample :
    emit_demo_record 0 (.fin (mkRat 1 2)) (.fin (mkRat 1 2))
        (.fin (mkRat 1 2)) (.fin (mkRat 1 2)) (some 0)
      = .ok (mkStreamRec 0)
  ∧ (check_inv_r4 (mkStreamRec 0)).passed = false := ⟨rfl, rfl⟩

/-- Witness for the amended C3 at concrete inputs `0.5` and timestamp
`1000`. -/
theorem C3_emitted_record_invariants_witness :
    ∃ r : RuntimeStateRecord,
      emit_demo_record 0 (.fin (mkRat 1 2)) (.fin (mkRat 1 2))
          (.fin (mkRat 1 2)) (.fin (mkRat 1 2)) (some 1000) = .ok r
      ∧ (check_inv_r1 r).passed = true
      ∧ (check_inv_r2 r).passed = true
      ∧ (check_inv_r3 r).passed = true
      ∧ (check_inv_r4 r).passed = true
      ∧ (check_inv_s1 r).passed = true
      ∧ (check_inv_s2 r).passed = true
      ∧ (check_inv_s3 r).passed = true
      ∧ (check_inv_s4 r).passed = true :=
  C3_emitted_record_invariants 0 (mkRat 1 2) (mkRat 1 2) (mkRat 1 2)
    (mkRat 1 2) (some 1000) (by norm_num [Rat.mkRat_eq_div])
    (by norm_num [Rat.mkRat_eq_div]) (by norm_num [Rat.mkRat_eq_div])
    (by norm_num [Rat.mkRat_eq_div]) (by norm_num [Rat.mkRat_eq_div])
    (by norm_num [Rat.mkRat_eq_div]) (by norm_num [Rat.mkRat_eq_div])
    (by norm_num [Rat.mkRat_eq_div]) (by norm_num)

/-- C10: the emitter never validates an explicitly supplied timestamp — for
in-range finite inputs and every `u64` value `t` (including 0) it returns
`Ok` and the record's timestamp equals `t`. -/
theorem C10_timestamp_never_validated (now : ℕ) (qb qn qs qm : ℚ) (t : ℕ)
    (hb0 : 0 ≤ qb) (hb1 : qb ≤ 1) (hn0 : 0 ≤ qn) (hn1 : qn ≤ 1)
    (hs0 : 0 ≤ qs) (hs1 : qs ≤ 1) (hm0 : 0 ≤ qm) (hm1 : qm ≤ 1)
    (_ht : t < 2 ^ 64) :
    ∃ r : RuntimeStateRecord,
      emit_demo_record now (.fin qb) (.fin qn) (.fin qs) (.fin qm) (some t)
        = .ok r ∧ r.timestamp = t := by
  obtain ⟨r, hok, -, -, htime, -⟩ :=
    emit_ok_of_valid now qb qn qs qm (some t) hb0 hb1 hn0 hn1 hs0 hs1 hm0 hm1
  exact ⟨r, hok, by simpa using htime⟩

/-- Witness for C10 at the boundary value `t = 0`: the emitter accepts it. -/
theorem C10_timestamp_never_validated_witness :
    ∃ r : RuntimeStateRecord,
      emit_demo_record 7 (.fin (mkRat 1 4)) (.fin (mkRat 1 4))
          (.fin (mkRat 1 4)) (.fin (mkRat 1 4)) (some 0) = .ok r
      ∧ r.timestamp = 0 :=
  C10_timestamp_never_validated 7 (mkRat 1 4) (mkRat 1 4) (mkRat 1 4)
    (mkRat 1 4) 0 (by norm_num [Rat.mkRat_eq_div])
    (by norm_num [Rat.mkRat_eq_div]) (by norm_num [Rat.mkRat_eq_div])
    (by norm_num [Rat.mkRat_eq_div]) (by norm_num [Rat.mkRat_eq_div])
    (by norm_num [Rat.mkRat_eq_div]) (by norm_num [Rat.mkRat_eq_div])
    (by norm_num [Rat.mkRat_eq_div]) (by norm_num)

/-- Modelled from the spec: JSON values of the wire format (§6).  The actual
encoder/decoder is the external serde/serde_json collaborator, absent from
the core sources; only its contract is modelled — a JSON object with the
canonical fields, unknown keys rejected at the decode boundary. -/
inductive Json where
  | jstr : String → Json
  | jnat : ℕ → Json
  | jnum : F64 → Json
  | jobj : List (String × Json) → Json

/-- Modelled from the spec: the four canonical keys of the nested
`functions` object. -/
def functionsKeys : List String :=
  ["baseline", "norm", "stability", "meta_control"]

/-- Modelled from the spec: the eight canonical top-level keys of a record
payload. -/
def recordKeys : List String :=
  ["spec_version", "schema_version", "timestamp", "functions",
   "stability_score", "risk_score", "mode", "risk_level"]

/-- Modelled from the spec: serde `Serialize` of `Functions` — one JSON
object with the four fields in declaration order. -/
def encodeFunctions (f : Functions) : Json :=
  .jobj [("baseline", .jnum f.baseline), ("norm", .jnum f.norm),
         ("stability", .jnum f.stability),
         ("meta_control", .jnum f.meta_control)]

/-- Modelled from the spec: serde `Serialize` of `RuntimeStateRecord` — one
JSON object with the eight fields in declaration order. -/
def encodeRecord (r : RuntimeStateRecord) : Json :=
  .jobj [("spec_version", .jstr r.spec_version),
         ("schema_version", .jstr r.schema_version),
         ("timestamp", .jnat r.timestamp),
         ("functions", encodeFunctions r.functions),
         ("stability_score", .jnum r.stability_score),
         ("risk_score", .jnum r.risk_score),
         ("mode", .jstr r.mode),
         ("risk_level", .jstr r.risk_level)]

/-- Modelled from the spec: field lookup requiring the key to occur exactly
once (serde rejects both missing and duplicate fields). -/
def getField (kvs : List (String × Json)) (k : String) : Option Json :=
  match kvs.filter (fun kv => kv.1 = k) with
  | [kv] => some kv.2
  | _ => none

/-- Modelled from the spec: decoding a JSON string. -/
def asStr : Json → Option String
  | .jstr s => some s
  | _ => none

/-- Modelled from the spec: decoding a `u64` (non-negative integer only). -/
def asNat : Json → Option ℕ
  | .jnat n => some n
  | _ => none

/-- Modelled from the spec: decoding an `f64` (serde_json also accepts an
integer literal for an `f64` field). -/
def asF64 : Json → Option F64
  | .jnum x => some x
  | .jnat n => some (.fin n)
  | _ => none

/-- Modelled from the spec: serde `Deserialize` of `Functions` with
`deny_unknown_fields` — every key must be canonical, every canonical key
present exactly once and well-typed. -/
def decodeFunctions : Json → Option Functions
  | .jobj kvs =>
      if kvs.all (fun kv => kv.1 ∈ functionsKeys) then
        match getField kvs "baseline" >>= asF64,
            getField kvs "norm" >>= asF64,
            getField kvs "stability" >>= asF64,
            getField kvs "meta_control" >>= asF64 with
        | some b, some n, some s, some m =>
            some { baseline := b, norm := n, stability := s,
                   meta_control := m }
        | _, _, _, _ => none
      else none
  | _ => none

/-- Modelled from the spec: serde `Deserialize` of `RuntimeStateRecord` with
`deny_unknown_fields`. -/
def decodeRecord : Json → Option RuntimeStateRecord
  | .jobj kvs =>
      if kvs.all (fun kv => kv.1 ∈ recordKeys) then
        match getField kvs "spec_version" >>= asStr,
            getField kvs "schema_version" >>= asStr,
            getField kvs "timestamp" >>= asNat,
            getField kvs "functions" >>= decodeFunctions,
            getField kvs "stability_score" >>= asF64,
            getField kvs "risk_score" >>= asF64,
            getField kvs "mode" >>= asStr,
            getField kvs "risk_level" >>= asStr with
        | some sv, some shv, some t, some f, some ss, some rs, some mo,
            some lv =>
            some { spec_version := sv, schema_version := shv, timestamp := t,
                   functions := f, stability_score := ss, risk_score := rs,
                   mode := mo, risk_level := lv }
        | _, _, _, _, _, _, _, _ => none
      else none
  | _ => none

theorem decode_encode (r : RuntimeStateRecord) :
    decodeRecord (encodeRecord r) = some r := rfl

/-- C9: encode-then-decode reproduces any record the emitter returns,
field for field; and decoding any object payload carrying a key beyond the
canonical eight fails. -/
theorem C9_round_trip_and_strictness :
    (∀ (now : ℕ) (b n s m : F64) (ts : Option ℕ) (r : RuntimeStateRecord),
      emit_demo_record now b n s m ts = .ok r →
        decodeRecord (encodeRecord r) = some r)
  ∧ (∀ (kvs : List (String × Json)) (k : String) (v : Json),
      (k, v) ∈ kvs → k ∉ recordKeys → decodeRecord (.jobj kvs) = none) := by
  constructor
  · intro now b n s m ts r _
    exact decode_encode r
  · intro kvs k v hmem hk
    have hall : ¬ (kvs.all (fun kv => kv.1 ∈ recordKeys) = true) := by
      rw [List.all_eq_true]
      intro hfor
      exact hk (by simpa using hfor (k, v) hmem)
    simp only [decodeRecord, if_neg hall]

/-- Witness for C9: the end-to-end example record round-trips, and a
payload containing the key `"extra_field"` is rejected. -/
theorem C9_round_trip_and_strictness_witness :
    decodeRecord (encodeRecord c7Record) = some c7Record
  ∧ decodeRecord (.jobj [("extra_field", .jstr "should_fail")]) = none :=
  ⟨C9_round_trip_and_strictness.1 0 (.fin (mkRat 25 100))
      (.fin (mkRat 70 100)) (.fin (mkRat 30 100)) (.fin (mkRat 20 100))
      (some 1707500000) c7Record (by rfl),
   C9_round_trip_and_strictness.2 [("extra_field", .jstr "should_fail")]
      "extra_field" (.jstr "should_fail") (by simp) (by decide)⟩
